import Mathlib

/-!
Verification development for the snify2 stepper and catalog subsystems.

Definitions are shallow embeddings of the Python sources:
  - `Trie` from `ffutil/snify/catalog.py`
  - the stepper engine from `ffutil/stepper/stepper.py` and
    `ffutil/stepper/stepper_extensions.py`
  - snify-specific pieces from `ffutil/snify/snifystate.py`,
    `ffutil/snify/snify_commands.py` and `ffutil/snify/snifystepper.py`.

Python dicts are modelled as insertion-ordered association lists, Python
lists as Lean lists, exceptions as `Except`, and mutation as explicit
state passing.
-/

namespace Snify

/-! ## Association lists: the model of Python `dict` (insertion ordered) -/

/-- Lookup in an insertion-ordered association list (Python `d[k]` / `k in d`). -/
def assocGet {α : Type} [DecidableEq α] {β : Type} : List (α × β) → α → Option β
  | [], _ => none
  | (k, v) :: rest, key => if k = key then some v else assocGet rest key

/-- In-place update of an existing key, preserving order (Python `d[k] = v`
for a key that is already present). -/
def assocSet {α : Type} [DecidableEq α] {β : Type} : List (α × β) → α → β → List (α × β)
  | [], _, _ => []
  | (k, v) :: rest, key, val =>
    if k = key then (k, val) :: rest else (k, v) :: assocSet rest key val

/-- Python `d.setdefault(k, []).append(x)`: append `x` to the list stored under
`k`, creating the binding (at the end, as dict insertion does) if absent. -/
def assocAppend {α : Type} [DecidableEq α] {β : Type} : List (α × List β) → α → β → List (α × List β)
  | [], key, val => [(key, [val])]
  | (k, vs) :: rest, key, val =>
    if k = key then (k, vs ++ [val]) :: rest else (k, vs) :: assocAppend rest key val

/-! ## Trie (`ffutil/snify/catalog.py`, class `Trie`) -/

/-- A trie node: `children` is the dict from token string to child node,
`verbs` the dict from symbol to the list of verbalizations recorded at this
exact path. -/
inductive Trie (Symb Verb : Type) : Type where
  | node (children : List (String × Trie Symb Verb)) (verbs : List (Symb × List Verb))

namespace Trie

variable {Symb Verb : Type} [DecidableEq Symb]

/-- `Trie()`: a fresh empty node. -/
def empty : Trie Symb Verb := .node [] []

def children : Trie Symb Verb → List (String × Trie Symb Verb)
  | .node ch _ => ch

def verbs : Trie Symb Verb → List (Symb × List Verb)
  | .node _ vs => vs

/-- `Trie.insert(key, symb, verb)`: walk (creating missing children) one child
per token, then `node.verbs.setdefault(symb, []).append(verb)` at the leaf. -/
def insert : Trie Symb Verb → List String → Symb → Verb → Trie Symb Verb
  | .node ch vs, [], symb, verb => .node ch (assocAppend vs symb verb)
  | .node ch vs, k :: ks, symb, verb =>
    match assocGet ch k with
    | some child => .node (assocSet ch k (child.insert ks symb verb)) vs
    | none => .node (ch ++ [(k, (empty : Trie Symb Verb).insert ks symb verb)]) vs

/-- `Trie.get(key)`: walk the path; return the leaf's `verbs` dict, or the
empty dict if the path does not fully exist. -/
def get : Trie Symb Verb → List String → List (Symb × List Verb)
  | t, [] => t.verbs
  | .node ch _, k :: ks =>
    match assocGet ch k with
    | some child => child.get ks
    | none => []

end Trie

end Snify

namespace Snify

/-! ## Theorems about the Trie -/

theorem assocGet_assocAppend_self {Symb Verb : Type} [DecidableEq Symb]
    (vs : List (Symb × List Verb)) (s : Symb) (v : Verb) :
    assocGet (assocAppend vs s v) s = some ((assocGet vs s).getD [] ++ [v]) := by
  induction vs with
  | nil => simp [assocAppend, assocGet]
  | cons hd rest ih =>
    obtain ⟨k, vlist⟩ := hd
    by_cases hk : k = s
    · subst hk
      simp [assocAppend, assocGet]
    · simp [assocAppend, assocGet, hk, ih]

end Snify

namespace Snify

/-! ## Stepper engine (`ffutil/stepper/stepper.py`)

`State` objects carry a cursor plus arbitrary domain payload; `Modification`
is an object with `apply`/`unapply` methods, modelled as a pair of state
transformers. Exceptions (`StopStepper`, `NotImplementedError`) are modelled
with `Except`. -/

/-- `Modification`: a change that can be undone. -/
structure Modification (S : Type) where
  apply : S → S
  unapply : S → S

/-- A stepper `State`: the engine itself only touches `cursor`; everything
else the application stores is the opaque `payload`. -/
structure StState (C P : Type) where
  cursor : C
  payload : P

/-- The `CommandOutcome` variants reaching the
`QuittableStepper`/`CursorModifyingStepper` handler chain: `QuitOutcome`,
`SetCursorOutcome`, and `other` for any outcome class no handler recognizes. -/
inductive Outcome (C : Type) where
  | quit
  | setCursor (newCursor : C)
  | other (tag : String)

/-- Exceptions escaping `handle_command_outcome`: `StopStepper(reason)` or the
base class's `NotImplementedError`. -/
inductive HErr where
  | stop (reason : String)
  | unhandled
deriving DecidableEq

/-- `CursorModification` (`ffutil/stepper/stepper_extensions.py`): `apply`
sets `state.cursor` to the new cursor, `unapply` sets it back to the old. -/
def CursorModification {C P : Type} (oldCursor newCursor : C) :
    Modification (StState C P) where
  apply := fun s => { s with cursor := newCursor }
  unapply := fun s => { s with cursor := oldCursor }

/-- The `handle_command_outcome` chain of
`class X(QuittableStepper, CursorModifyingStepper, Stepper)` in Python MRO
order: `QuitOutcome` raises `StopStepper('quit')`; `SetCursorOutcome` yields a
`CursorModification` from the current cursor; anything else falls through to
`Stepper.handle_command_outcome`, which raises `NotImplementedError`. -/
def quittableCursorChain {C P : Type} (s : StState C P) :
    Outcome C → Except HErr (Option (Modification (StState C P)))
  | .quit => .error (.stop "quit")
  | .setCursor c => .ok (some (CursorModification s.cursor c))
  | .other _ => .error .unhandled

/-- The stepper's own fields: `state`, `modification_history`,
`modification_future` (stacks of batches; Python appends/pops at the end). -/
structure StepperSt (S : Type) where
  state : S
  history : List (List (Modification S))
  future : List (List (Modification S))

/-- The `for outcome in outcomes` loop of `Stepper._single_iteration`: map
each outcome through the handler; a resulting modification is applied to the
state immediately and appended to the iteration's batch (`acc`); handler
exceptions propagate. -/
def processOutcomes {S O : Type} (handler : S → O → Except HErr (Option (Modification S))) :
    List O → S → List (Modification S) → Except HErr (S × List (Modification S))
  | [], s, acc => .ok (s, acc)
  | o :: os, s, acc =>
    match handler s o with
    | .error e => .error e
    | .ok none => processOutcomes handler os s acc
    | .ok (some m) => processOutcomes handler os (m.apply s) (acc ++ [m])

/-- The tail of `Stepper._single_iteration`: after the outcome loop, a
non-empty batch is pushed onto the history and the future stack is cleared;
an empty batch leaves both stacks alone. -/
def singleIteration {S O : Type} (handler : S → O → Except HErr (Option (Modification S)))
    (st : StepperSt S) (outcomes : List O) : Except HErr (StepperSt S) :=
  match processOutcomes handler outcomes st.state [] with
  | .error e => .error e
  | .ok (s, mods) =>
    if mods.isEmpty then .ok { st with state := s }
    else .ok { state := s, history := st.history ++ [mods], future := [] }

/-- One iteration's worth of external input: whether the
`ensure_state_up_to_date` hook raises `StopStepper` (and with which reason),
and the command outcomes the dispatched command produces. -/
structure IterInput (O : Type) where
  ensureStop : Option String
  outcomes : List O

/-- `Stepper._single_iteration` including the `ensure_state_up_to_date` hook
at its start (which may raise a stop signal before any outcome is handled). -/
def singleIterationFull {S O : Type} (handler : S → O → Except HErr (Option (Modification S)))
    (inp : IterInput O) (st : StepperSt S) : Except HErr (StepperSt S) :=
  match inp.ensureStop with
  | some r => .error (.stop r)
  | none => singleIteration handler st inp.outcomes

/-- How `Stepper.run` terminates abnormally: a `NotImplementedError` escaping
the loop, or (model artifact) the finite input script being exhausted while
the real loop would block for more user input. -/
inductive RunExit where
  | unhandledOutcome
  | outOfScript
deriving DecidableEq

/-- The `while True: self._single_iteration()` loop of `Stepper.run`, driven
by a finite script of iteration inputs; exceptions propagate. -/
def runAux {S O : Type} (handler : S → O → Except HErr (Option (Modification S))) :
    List (IterInput O) → StepperSt S → Except HErr (StepperSt S)
  | [], st => .ok st
  | i :: is, st =>
    match singleIterationFull handler i st with
    | .error e => .error e
    | .ok st2 => runAux handler is st2

/-- `Stepper.run`: the loop wrapped in `try ... except StopStepper: pass`.
A stop signal is caught and discarded, so the Python function returns `None`
(modelled as `Except.ok none`); any other exception propagates. -/
def run {S O : Type} (handler : S → O → Except HErr (Option (Modification S)))
    (script : List (IterInput O)) (st : StepperSt S) : Except RunExit (Option String) :=
  match runAux handler script st with
  | .error (.stop _) => .ok none
  | .error .unhandled => .error .unhandledOutcome
  | .ok _ => .error .outOfScript

end Snify

/-- Claim C3: inserting `(K, S, e1)` and then `(K, S, e2)` into a (fresh) Trie
and looking up `K` yields a mapping whose entry for `S` is exactly `[e1, e2]`:
repeated insertion appends rather than replaces, preserving order and keeping
duplicates. -/
theorem c3_trie_roundtrip {Symb Verb : Type} [DecidableEq Symb]
    (K : List String) (S : Symb) (e1 e2 : Verb) :
    Snify.assocGet
      ((((Snify.Trie.empty : Snify.Trie Symb Verb).insert K S e1).insert K S e2).get K) S
      = some [e1, e2] := by
  induction K with
  | nil =>
    simp [Snify.Trie.empty, Snify.Trie.insert, Snify.Trie.get, Snify.Trie.verbs,
      Snify.assocAppend, Snify.assocGet]
  | cons k ks ih =>
    simp only [Snify.Trie.empty, Snify.Trie.insert, Snify.assocGet, Snify.Trie.get]
    simp only [Snify.assocGet, Snify.assocSet, Snify.Trie.children]
    simpa [Snify.Trie.empty] using ih

/-- Claim C1 (code behavior at the failing input): issuing the quit command
makes `run()` return `None` (the stop signal's reason tag `"quit"` is caught
and discarded by `except StopStepper: pass`), so `run()` does not return the
value `"quit"` that the claim states and that the caller
`snify.py` (`stop_reason = stepper.run(); if stop_reason == 'quit': ...`)
expects. -/
theorem c1_run_quit_returns_none :
    Snify.run Snify.quittableCursorChain
        [{ ensureStop := none, outcomes := [Snify.Outcome.quit] }]
        ({ state := { cursor := 0, payload := 0 }, history := [], future := [] }
          : Snify.StepperSt (Snify.StState Nat Nat))
      = Except.ok none
    ∧ (Except.ok none : Except Snify.RunExit (Option String)) ≠ Except.ok (some "quit") := by
  refine ⟨rfl, ?_⟩
  intro h
  simp at h

/-- Claim C4: in one stepper iteration, if the batch of modifications produced
from the command outcomes is non-empty, the batch is appended to the history
stack and the future (redo) stack is cleared; if the batch is empty, both
stacks are left unchanged. -/
theorem c4_batch_history_future (S O : Type)
    (handler : S → O → Except Snify.HErr (Option (Snify.Modification S)))
    (st : Snify.StepperSt S) (outcomes : List O)
    (s2 : S) (batch : List (Snify.Modification S))
    (h : Snify.processOutcomes handler outcomes st.state [] = Except.ok (s2, batch))
    (st2 : Snify.StepperSt S)
    (h2 : Snify.singleIteration handler st outcomes = Except.ok st2) :
    (batch ≠ [] → st2.history = st.history ++ [batch] ∧ st2.future = [])
    ∧ (batch = [] → st2.history = st.history ∧ st2.future = st.future) := by
  unfold Snify.singleIteration at h2
  rw [h] at h2
  cases batch with
  | nil =>
    simp at h2
    refine ⟨fun hne => absurd rfl hne, fun _ => ?_⟩
    rw [← h2]
    exact ⟨rfl, rfl⟩
  | cons b bs =>
    simp at h2
    refine ⟨fun _ => ?_, fun hemp => by simp at hemp⟩
    rw [← h2]
    exact ⟨rfl, rfl⟩

/-- Witness for C4 at a concrete iteration: a set-cursor outcome produces a
one-element batch, which lands on the history while a pending redo batch is
discarded. -/
theorem c4_batch_history_future_witness :
    ((([Snify.CursorModification 0 1] : List (Snify.Modification (Snify.StState Nat Nat))) ≠ [] →
        ([[Snify.CursorModification 0 1]] : List (List (Snify.Modification (Snify.StState Nat Nat))))
            = [] ++ [[Snify.CursorModification 0 1]]
        ∧ ([] : List (List (Snify.Modification (Snify.StState Nat Nat)))) = [])
      ∧ (([Snify.CursorModification 0 1] : List (Snify.Modification (Snify.StState Nat Nat))) = [] →
        ([[Snify.CursorModification 0 1]] : List (List (Snify.Modification (Snify.StState Nat Nat)))) = []
        ∧ ([] : List (List (Snify.Modification (Snify.StState Nat Nat))))
            = [[Snify.CursorModification 2 3]])) :=
  c4_batch_history_future (Snify.StState Nat Nat) (Snify.Outcome Nat)
    Snify.quittableCursorChain
    { state := { cursor := 0, payload := 0 }, history := [],
      future := [[Snify.CursorModification 2 3]] }
    [Snify.Outcome.setCursor 1]
    { cursor := 1, payload := 0 } [Snify.CursorModification 0 1] rfl
    { state := { cursor := 1, payload := 0 },
      history := [[Snify.CursorModification 0 1]], future := [] } rfl

/-- Claim C5: a `CursorModification` built from the state's current cursor and
a new cursor sets the cursor to the new cursor on `apply`, and `unapply` after
`apply` restores the original state (in particular the original cursor),
field for field. -/
theorem c5_cursor_modification_roundtrip {C P : Type} (s : Snify.StState C P) (newCursor : C) :
    ((Snify.CursorModification s.cursor newCursor).apply s).cursor = newCursor
    ∧ (Snify.CursorModification s.cursor newCursor).unapply
        ((Snify.CursorModification s.cursor newCursor).apply s) = s :=
  ⟨rfl, rfl⟩

/-- Claim C6: an outcome recognized by no handler in the chain makes
`handle_command_outcome` raise the unhandled-outcome error
(`NotImplementedError`), and this error propagates out of `run()` (which
catches only the stop signal). -/
theorem c6_unhandled_outcome_fatal {C P : Type} :
    (∀ (s : Snify.StState C P) (tag : String),
      Snify.quittableCursorChain s (Snify.Outcome.other tag) = Except.error Snify.HErr.unhandled)
    ∧ (∀ (st : Snify.StepperSt (Snify.StState C P))
        (rest : List (Snify.IterInput (Snify.Outcome C))) (tag : String),
      Snify.run Snify.quittableCursorChain
          ({ ensureStop := none, outcomes := [Snify.Outcome.other tag] } :: rest) st
        = Except.error Snify.RunExit.unhandledOutcome) :=
  ⟨fun _ _ => rfl, fun _ _ _ => rfl⟩

namespace Snify

/-! ## Catalog matching algorithm

`Catalog.find_first_match` is called from
`SnifyStepper.ensure_state_up_to_date` but its implementation file is not
part of the sources at hand, so it is modelled from the spec (section 4.6):
tokenize, then for each start position walk the trie over stemmed words
tracking the longest node with a non-empty, non-fully-ignored symbol map;
leftmost start wins, longest length at that start wins. -/

/-- Modelled from the spec: a token produced by tokenization, a word together
with its source character span (`start` inclusive, `stop` exclusive). -/
structure Word where
  surface : String
  start : Nat
  stop : Nat
deriving DecidableEq

/-- Modelled from the spec: the three per-scan ignore sets (`stems_to_ignore`,
`words_to_ignore`, `symbols_to_ignore`). -/
structure Ignores (Symb : Type) where
  stems : List String
  words : List String
  symbols : List Symb

/-- Modelled from the spec: a `Catalog` is a `(language, Trie)` pair; the
language determines the stemmer, and tokenization of free text is the
(external) word splitter. Both are carried as function-valued fields since
their implementations are external to the modelled core. -/
structure CatalogM (Symb Verb : Type) where
  lang : String
  stem : String → String
  tokenize : String → List Word
  trie : Trie Symb Verb

/-- The result shape of `find_first_match`:
`(start_offset, end_offset, options)`. -/
abbrev MatchResult (Symb Verb : Type) := Nat × Nat × List (Symb × Verb)

variable {Symb Verb : Type}

/-- Walk the trie along a full key path, returning the node reached (the
walking skeleton shared by `Trie.get`). -/
def trieNodeAt : Trie Symb Verb → List String → Option (Trie Symb Verb)
  | t, [] => some t
  | .node ch _, k :: ks =>
    match assocGet ch k with
    | some child => trieNodeAt child ks
    | none => none

/-- The stemmed key of the window of `len` words starting at word index `i`. -/
def windowStems (cat : CatalogM Symb Verb) (words : List Word) (i len : Nat) : List String :=
  ((words.drop i).take len).map (fun w => cat.stem w.surface)

/-- The literal surface text of a window (its words joined by single spaces). -/
def windowSurface (words : List Word) (i len : Nat) : String :=
  String.intercalate " " (((words.drop i).take len).map Word.surface)

/-- Modelled from the spec: the candidate `(symbol, entry)` options recorded
at a node, in catalog insertion order; symbols in `symbols_to_ignore` are
dropped, and a node whose stems are wholly ignored or whose literal surface
text is ignored contributes no candidates at all. -/
def nodeOptions [DecidableEq Symb] (ig : Ignores Symb) (pathStems : List String)
    (surface : String) (node : Trie Symb Verb) : List (Symb × Verb) :=
  if (∀ st ∈ pathStems, st ∈ ig.stems) ∨ surface ∈ ig.words then []
  else node.verbs.flatMap (fun sv =>
    if sv.1 ∈ ig.symbols then [] else sv.2.map (fun v => (sv.1, v)))

/-- The candidate options of the window `[i, i+len)`, empty when its stemmed
key is not a full path in the trie. -/
def optionsAt [DecidableEq Symb] (cat : CatalogM Symb Verb) (ig : Ignores Symb)
    (words : List Word) (i len : Nat) : List (Symb × Verb) :=
  match trieNodeAt cat.trie (windowStems cat words i len) with
  | some node => nodeOptions ig (windowStems cat words i len) (windowSurface words i len) node
  | none => []

/-- A window is a viable match if it is non-empty, lies within the word list,
and has at least one surviving candidate option. -/
def viable [DecidableEq Symb] (cat : CatalogM Symb Verb) (ig : Ignores Symb)
    (words : List Word) (i len : Nat) : Prop :=
  0 < len ∧ i + len ≤ words.length ∧ optionsAt cat ig words i len ≠ []

instance [DecidableEq Symb] (cat : CatalogM Symb Verb) (ig : Ignores Symb)
    (words : List Word) (i len : Nat) : Decidable (viable cat ig words i len) :=
  decidable_of_iff
    (0 < len ∧ i + len ≤ words.length ∧ (optionsAt cat ig words i len).isEmpty = false)
    (by unfold viable; rw [List.isEmpty_eq_false])

/-- The result reported for the window `[i, i+len)`: start offset of its first
word, end offset of its last word, and its options. -/
def resultFor [DecidableEq Symb] (cat : CatalogM Symb Verb) (ig : Ignores Symb)
    (words : List Word) (i len : Nat) : MatchResult Symb Verb :=
  ((words.getD i ⟨"", 0, 0⟩).start, (words.getD (i + len - 1) ⟨"", 0, 0⟩).stop,
    optionsAt cat ig words i len)

/-- The best (longest-wins) viable result among the windows at start `i` of
length at most `d`. -/
def bestLe [DecidableEq Symb] (cat : CatalogM Symb Verb) (ig : Ignores Symb)
    (words : List Word) (i : Nat) : Nat → Option (MatchResult Symb Verb)
  | 0 => none
  | d + 1 =>
    if viable cat ig words i (d + 1) then some (resultFor cat ig words i (d + 1))
    else bestLe cat ig words i d

/-- Modelled from the spec: the trie walk from start word `i`, having already
consumed `d` words and reached `node`; extends the window one stemmed word at
a time while a child exists, remembering in `best` the longest window so far
whose candidate list is non-empty. -/
def goWalk [DecidableEq Symb] (cat : CatalogM Symb Verb) (ig : Ignores Symb)
    (words : List Word) (i : Nat) (node : Trie Symb Verb) (d : Nat)
    (best : Option (MatchResult Symb Verb)) : Option (MatchResult Symb Verb) :=
  if h : i + d < words.length then
    match assocGet node.children (cat.stem (words.get ⟨i + d, h⟩).surface) with
    | none => best
    | some child =>
      goWalk cat ig words i child (d + 1)
        (if (nodeOptions ig (windowStems cat words i (d + 1))
              (windowSurface words i (d + 1)) child).isEmpty
          then best else some (resultFor cat ig words i (d + 1)))
  else best
termination_by words.length - (i + d)
decreasing_by omega

/-- Modelled from the spec: try each candidate start word in increasing
position order; the first start whose walk yields any viable window wins. -/
def scanFrom [DecidableEq Symb] (cat : CatalogM Symb Verb) (ig : Ignores Symb)
    (words : List Word) (i : Nat) : Option (MatchResult Symb Verb) :=
  if _h : i < words.length then
    match goWalk cat ig words i cat.trie 0 none with
    | some r => some r
    | none => scanFrom cat ig words (i + 1)
  else none
termination_by words.length - i
decreasing_by omega

/-- Modelled from the spec: `Catalog.find_first_match(string, stems_to_ignore,
words_to_ignore, symbols_to_ignore)` — tokenize the text and scan all start
positions left to right. -/
def find_first_match [DecidableEq Symb] (cat : CatalogM Symb Verb) (text : String)
    (ig : Ignores Symb) : Option (MatchResult Symb Verb) :=
  scanFrom cat ig (cat.tokenize text) 0

end Snify

namespace Snify

/-! ## Leftmost-longest characterization of `find_first_match` -/

variable {Symb Verb : Type}

theorem trieNodeAt_append (t : Trie Symb Verb) (p q : List String) :
    trieNodeAt t (p ++ q) = (trieNodeAt t p).bind (fun n => trieNodeAt n q) := by
  induction p generalizing t with
  | nil =>
    cases t with
    | node ch vs => rfl
  | cons k p ih =>
    cases t with
    | node ch vs =>
      cases h : assocGet ch k with
      | none => simp [trieNodeAt, h]
      | some child => simp [trieNodeAt, h, ih child]

theorem trieNodeAt_snoc (t : Trie Symb Verb) (p : List String) (k : String) :
    trieNodeAt t (p ++ [k]) = (trieNodeAt t p).bind (fun n => assocGet n.children k) := by
  rw [trieNodeAt_append]
  cases trieNodeAt t p with
  | none => rfl
  | some n =>
    cases n with
    | node ch vs =>
      cases h : assocGet ch k with
      | none => simp [trieNodeAt, Trie.children, h]
      | some child => simp [trieNodeAt, Trie.children, h]

theorem windowStems_succ (cat : CatalogM Symb Verb) (words : List Word) (i d : Nat)
    (h : i + d < words.length) :
    windowStems cat words i (d + 1)
      = windowStems cat words i d ++ [cat.stem (words.get ⟨i + d, h⟩).surface] := by
  unfold windowStems
  rw [List.take_succ]
  have hd : (words.drop i)[d]? = some (words.get ⟨i + d, h⟩) := by
    rw [List.getElem?_drop]
    exact List.getElem?_eq_getElem h
  rw [hd]
  simp

theorem windowStems_prefix (cat : CatalogM Symb Verb) (words : List Word) (i d len : Nat)
    (hdl : d ≤ len) :
    ∃ rest, windowStems cat words i len = windowStems cat words i d ++ rest := by
  unfold windowStems
  have hsplit : len = d + (len - d) := by omega
  rw [hsplit, List.take_add, List.map_append]
  exact ⟨_, rfl⟩

theorem not_viable_of_node_none [DecidableEq Symb] (cat : CatalogM Symb Verb)
    (ig : Ignores Symb) (words : List Word) (i d len : Nat)
    (h : trieNodeAt cat.trie (windowStems cat words i d) = none) (hdl : d ≤ len) :
    ¬ viable cat ig words i len := by
  intro hv
  obtain ⟨rest, hw⟩ := windowStems_prefix cat words i d len hdl
  have hnone : trieNodeAt cat.trie (windowStems cat words i len) = none := by
    rw [hw, trieNodeAt_append, h]
    rfl
  apply hv.2.2
  unfold optionsAt
  rw [hnone]

theorem viable_le [DecidableEq Symb] (cat : CatalogM Symb Verb) (ig : Ignores Symb)
    (words : List Word) (i len : Nat) (hv : viable cat ig words i len) :
    len ≤ words.length - i := by
  obtain ⟨h1, h2, _⟩ := hv
  omega

theorem bestLe_stable [DecidableEq Symb] (cat : CatalogM Symb Verb) (ig : Ignores Symb)
    (words : List Word) (i d N : Nat) (hdn : d ≤ N)
    (h : ∀ l, d < l → l ≤ N → ¬ viable cat ig words i l) :
    bestLe cat ig words i N = bestLe cat ig words i d := by
  induction N with
  | zero =>
    have hd0 : d = 0 := by omega
    rw [hd0]
  | succ n ih =>
    by_cases hdd : d = n + 1
    · rw [hdd]
    · have hd2 : d ≤ n := by omega
      rw [bestLe, if_neg (h (n + 1) (by omega) (le_refl _))]
      exact ih hd2 (fun l hl1 hl2 => h l hl1 (by omega))

theorem bestLe_none_iff [DecidableEq Symb] (cat : CatalogM Symb Verb) (ig : Ignores Symb)
    (words : List Word) (i d : Nat) :
    bestLe cat ig words i d = none
      ↔ ∀ len, 0 < len → len ≤ d → ¬ viable cat ig words i len := by
  induction d with
  | zero =>
    simp only [bestLe]
    constructor
    · intro _ len h1 h2
      omega
    · intro _
      trivial
  | succ n ih =>
    rw [bestLe]
    by_cases hv : viable cat ig words i (n + 1)
    · rw [if_pos hv]
      constructor
      · intro h
        cases h
      · intro h
        exact absurd hv (h (n + 1) (Nat.succ_pos n) (le_refl _))
    · rw [if_neg hv, ih]
      constructor
      · intro h len h1 h2
        rcases Nat.lt_or_ge len (n + 1) with hlt | hge
        · exact h len h1 (by omega)
        · have hx : len = n + 1 := by omega
          rw [hx]
          exact hv
      · intro h len h1 h2
        exact h len h1 (by omega)

theorem bestLe_some_spec [DecidableEq Symb] (cat : CatalogM Symb Verb) (ig : Ignores Symb)
    (words : List Word) (i d : Nat) (r : MatchResult Symb Verb)
    (h : bestLe cat ig words i d = some r) :
    ∃ len, 0 < len ∧ len ≤ d ∧ viable cat ig words i len ∧
      (∀ l, len < l → l ≤ d → ¬ viable cat ig words i l) ∧
      r = resultFor cat ig words i len := by
  induction d with
  | zero => cases h
  | succ n ih =>
    rw [bestLe] at h
    by_cases hv : viable cat ig words i (n + 1)
    · rw [if_pos hv] at h
      injection h with h
      exact ⟨n + 1, Nat.succ_pos n, le_refl _, hv,
        fun l h1 h2 => absurd (Nat.lt_of_lt_of_le h1 h2) (Nat.lt_irrefl _), h.symm⟩
    · rw [if_neg hv] at h
      obtain ⟨len, h1, h2, h3, h4, h5⟩ := ih h
      refine ⟨len, h1, by omega, h3, ?_, h5⟩
      intro l hl1 hl2
      rcases Nat.lt_or_ge l (n + 1) with hlt | hge
      · exact h4 l hl1 (by omega)
      · have hx : l = n + 1 := by omega
        rw [hx]
        exact hv

end Snify

namespace Snify

variable {Symb Verb : Type}

theorem goWalk_spec [DecidableEq Symb] (cat : CatalogM Symb Verb) (ig : Ignores Symb)
    (words : List Word) (i : Nat) :
    ∀ fuel d node best, words.length - (i + d) = fuel →
      trieNodeAt cat.trie (windowStems cat words i d) = some node →
      best = bestLe cat ig words i d →
      goWalk cat ig words i node d best = bestLe cat ig words i (words.length - i) := by
  intro fuel
  induction fuel with
  | zero =>
    intro d node best hfuel hnode hbest
    rw [goWalk, dif_neg (by omega : ¬ i + d < words.length), hbest]
    exact bestLe_stable cat ig words i (words.length - i) d (by omega)
      (fun l hl1 _ hv => absurd (viable_le cat ig words i l hv) (by omega))
  | succ n ih =>
    intro d node best hfuel hnode hbest
    have hlt : i + d < words.length := by omega
    rw [goWalk, dif_pos hlt]
    split
    next hch =>
      have hnone : trieNodeAt cat.trie (windowStems cat words i (d + 1)) = none := by
        rw [windowStems_succ cat words i d hlt, trieNodeAt_snoc, hnode]
        simpa using hch
      rw [hbest]
      exact (bestLe_stable cat ig words i d (words.length - i) (by omega)
        (fun l hl1 _ => not_viable_of_node_none cat ig words i (d + 1) l hnone (by omega))).symm
    next child hch =>
      have hnode2 : trieNodeAt cat.trie (windowStems cat words i (d + 1)) = some child := by
        rw [windowStems_succ cat words i d hlt, trieNodeAt_snoc, hnode]
        simpa using hch
      have hopts : nodeOptions ig (windowStems cat words i (d + 1))
          (windowSurface words i (d + 1)) child = optionsAt cat ig words i (d + 1) := by
        unfold optionsAt
        rw [hnode2]
      have hbest2 : (if (nodeOptions ig (windowStems cat words i (d + 1))
              (windowSurface words i (d + 1)) child).isEmpty
            then best else some (resultFor cat ig words i (d + 1)))
          = bestLe cat ig words i (d + 1) := by
        rw [hopts]
        cases he : (optionsAt cat ig words i (d + 1)).isEmpty with
        | true =>
          rw [if_pos rfl, hbest]
          rw [bestLe, if_neg (fun hv => hv.2.2 (List.isEmpty_iff.mp he))]
        | false =>
          rw [if_neg (by decide), bestLe,
            if_pos ⟨Nat.succ_pos d, by omega, List.isEmpty_eq_false.mp he⟩]
      rw [hbest2]
      exact ih (d + 1) child _ (by omega) hnode2 rfl

theorem goWalk_start [DecidableEq Symb] (cat : CatalogM Symb Verb) (ig : Ignores Symb)
    (words : List Word) (i : Nat) :
    goWalk cat ig words i cat.trie 0 none = bestLe cat ig words i (words.length - i) := by
  apply goWalk_spec cat ig words i (words.length - (i + 0)) 0 cat.trie none rfl
  · show trieNodeAt cat.trie (windowStems cat words i 0) = some cat.trie
    have h0 : windowStems cat words i 0 = [] := by
      simp [windowStems]
    rw [h0]
    cases hc : cat.trie with
    | node ch vs => rfl
  · rfl

theorem bestAt_none_iff [DecidableEq Symb] (cat : CatalogM Symb Verb) (ig : Ignores Symb)
    (words : List Word) (j : Nat) :
    bestLe cat ig words j (words.length - j) = none
      ↔ ∀ len, ¬ viable cat ig words j len := by
  rw [bestLe_none_iff]
  constructor
  · intro h len hv
    exact h len hv.1 (viable_le cat ig words j len hv) hv
  · intro h len _ _
    exact h len

theorem bestAt_some_spec [DecidableEq Symb] (cat : CatalogM Symb Verb) (ig : Ignores Symb)
    (words : List Word) (j : Nat) (r : MatchResult Symb Verb)
    (h : bestLe cat ig words j (words.length - j) = some r) :
    ∃ len, viable cat ig words j len ∧ (∀ l, len < l → ¬ viable cat ig words j l) ∧
      r = resultFor cat ig words j len := by
  obtain ⟨len, _, _, h3, h4, h5⟩ := bestLe_some_spec cat ig words j (words.length - j) r h
  refine ⟨len, h3, ?_, h5⟩
  intro l hl hv
  exact h4 l hl (viable_le cat ig words j l hv) hv

end Snify

namespace Snify

variable {Symb Verb : Type}

theorem scanFrom_of_end [DecidableEq Symb] (cat : CatalogM Symb Verb) (ig : Ignores Symb)
    (words : List Word) (i : Nat) (hge : ¬ i < words.length) :
    scanFrom cat ig words i = none := by
  rw [scanFrom, dif_neg hge]

theorem scanFrom_of_some [DecidableEq Symb] (cat : CatalogM Symb Verb) (ig : Ignores Symb)
    (words : List Word) (i : Nat) (r : MatchResult Symb Verb) (hlt : i < words.length)
    (hg : bestLe cat ig words i (words.length - i) = some r) :
    scanFrom cat ig words i = some r := by
  rw [scanFrom, dif_pos hlt, goWalk_start, hg]

theorem scanFrom_of_none [DecidableEq Symb] (cat : CatalogM Symb Verb) (ig : Ignores Symb)
    (words : List Word) (i : Nat) (hlt : i < words.length)
    (hg : bestLe cat ig words i (words.length - i) = none) :
    scanFrom cat ig words i = scanFrom cat ig words (i + 1) := by
  rw [scanFrom, dif_pos hlt, goWalk_start, hg]

theorem scanFrom_spec [DecidableEq Symb] (cat : CatalogM Symb Verb) (ig : Ignores Symb)
    (words : List Word) :
    ∀ fuel i, words.length - i = fuel →
      (scanFrom cat ig words i = none ↔ ∀ j, i ≤ j → ∀ len, ¬ viable cat ig words j len)
      ∧ (∀ r, scanFrom cat ig words i = some r →
          ∃ j, i ≤ j ∧ (∀ j2 len2, i ≤ j2 → j2 < j → ¬ viable cat ig words j2 len2)
            ∧ ∃ len, viable cat ig words j len
              ∧ (∀ l, len < l → ¬ viable cat ig words j l)
              ∧ r = resultFor cat ig words j len) := by
  intro fuel
  induction fuel with
  | zero =>
    intro i hfuel
    have hend := scanFrom_of_end cat ig words i (by omega)
    rw [hend]
    constructor
    · constructor
      · intro _ j hj len hv
        have h1 := hv.1
        have h2 := hv.2.1
        omega
      · intro _
        rfl
    · intro r hr
      cases hr
  | succ n ih =>
    intro i hfuel
    have hlt : i < words.length := by omega
    cases hg : bestLe cat ig words i (words.length - i) with
    | some r0 =>
      have hs := scanFrom_of_some cat ig words i r0 hlt hg
      rw [hs]
      obtain ⟨len0, hv0, hmax0, hres0⟩ := bestAt_some_spec cat ig words i r0 hg
      constructor
      · constructor
        · intro h
          cases h
        · intro hall
          exact absurd hv0 (hall i (le_refl i) len0)
      · intro r hr
        injection hr with hr
        refine ⟨i, le_refl i, ?_, len0, hv0, hmax0, by rw [← hr, hres0]⟩
        intro j2 len2 hj2 hj2lt
        omega
    | none =>
      have hs := scanFrom_of_none cat ig words i hlt hg
      have hnoi : ∀ len, ¬ viable cat ig words i len := (bestAt_none_iff cat ig words i).mp hg
      obtain ⟨ih1, ih2⟩ := ih (i + 1) (by omega)
      rw [hs]
      constructor
      · rw [ih1]
        constructor
        · intro h j hj len
          rcases Nat.eq_or_lt_of_le hj with he | hlt2
          · rw [← he]
            exact hnoi len
          · exact h j (by omega) len
        · intro h j hj len
          exact h j (by omega) len
      · intro r hr
        obtain ⟨j, hj1, hgap, rest⟩ := ih2 r hr
        refine ⟨j, by omega, ?_, rest⟩
        intro j2 len2 hj2 hj2lt
        rcases Nat.eq_or_lt_of_le hj2 with he | h3
        · rw [← he]
          exact hnoi len2
        · exact hgap j2 len2 (by omega) hj2lt

end Snify

/-- Claim C2: `find_first_match` returns `None` exactly when no start position
has a viable non-empty match; otherwise it returns
`(start_offset, end_offset, options)` for the smallest start position with any
viable match, with the longest viable length at that position, the offsets
being the source span of the matched window and `options` the winning node's
`(symbol, entry)` pairs in catalog insertion order (as recorded by
`resultFor`/`optionsAt`). -/
theorem c2_find_first_match_leftmost_longest {Symb Verb : Type} [DecidableEq Symb]
    (cat : Snify.CatalogM Symb Verb) (text : String) (ig : Snify.Ignores Symb) :
    (Snify.find_first_match cat text ig = none
      ↔ ∀ i len, ¬ Snify.viable cat ig (cat.tokenize text) i len)
    ∧ (∀ r, Snify.find_first_match cat text ig = some r →
        ∃ i len, Snify.viable cat ig (cat.tokenize text) i len
          ∧ (∀ i2 len2, i2 < i → ¬ Snify.viable cat ig (cat.tokenize text) i2 len2)
          ∧ (∀ len2, len < len2 → ¬ Snify.viable cat ig (cat.tokenize text) i len2)
          ∧ r = Snify.resultFor cat ig (cat.tokenize text) i len) := by
  obtain ⟨h1, h2⟩ := Snify.scanFrom_spec cat ig (cat.tokenize text)
    (cat.tokenize text).length 0 (by omega)
  constructor
  · rw [Snify.find_first_match, h1]
    constructor
    · intro h i len
      exact h i (Nat.zero_le i) len
    · intro h j _ len
      exact h j len
  · intro r hr
    obtain ⟨j, _, hgap, len, hv, hmax, hres⟩ := h2 r hr
    exact ⟨j, len, hv, fun i2 len2 h2lt => hgap i2 len2 (Nat.zero_le i2) h2lt, hmax, hres⟩

namespace Snify

/-- Concrete token list for the spec's leftmost-longest example text
`"alpha beta gamma"`. -/
def wordsABG : List Word :=
  [⟨"alpha", 0, 5⟩, ⟨"beta", 6, 10⟩, ⟨"gamma", 11, 16⟩]

/-- A trie holding both `"beta"` (symbol 0) and `"beta gamma"` (symbol 1),
built with the source `Trie.insert`. -/
def trieBG : Trie Nat String :=
  ((Trie.empty : Trie Nat String).insert ["beta"] 0 "beta").insert
    ["beta", "gamma"] 1 "beta gamma"

/-- A concrete catalog with identity stemming and fixed tokenization. -/
def catBG : CatalogM Nat String where
  lang := "en"
  stem := fun s => s
  tokenize := fun _ => wordsABG
  trie := trieBG

/-- Empty ignore sets. -/
def igEmpty : Ignores Nat where
  stems := []
  words := []
  symbols := []

theorem find_first_match_catBG :
    find_first_match catBG "alpha beta gamma" igEmpty = some (6, 16, [(1, "beta gamma")]) := by
  show scanFrom catBG igEmpty wordsABG 0 = some (6, 16, [(1, "beta gamma")])
  rw [scanFrom_of_none catBG igEmpty wordsABG 0 (by decide) (by decide)]
  exact scanFrom_of_some catBG igEmpty wordsABG 1 (6, 16, [(1, "beta gamma")])
    (by decide) (by decide)

end Snify

/-- Witness for C2 at the spec's own example: in `"alpha beta gamma"` with both
`"beta"` and `"beta gamma"` in the catalog, the returned match starts at the
earliest matching word and takes the longest viable window. -/
theorem c2_find_first_match_witness :
    ∃ i len, Snify.viable Snify.catBG Snify.igEmpty
        (Snify.catBG.tokenize "alpha beta gamma") i len
      ∧ (∀ i2 len2, i2 < i → ¬ Snify.viable Snify.catBG Snify.igEmpty
          (Snify.catBG.tokenize "alpha beta gamma") i2 len2)
      ∧ (∀ len2, len < len2 → ¬ Snify.viable Snify.catBG Snify.igEmpty
          (Snify.catBG.tokenize "alpha beta gamma") i len2)
      ∧ ((6, 16, [(1, "beta gamma")]) : Snify.MatchResult Nat String)
          = Snify.resultFor Snify.catBG Snify.igEmpty
              (Snify.catBG.tokenize "alpha beta gamma") i len :=
  (c2_find_first_match_leftmost_longest Snify.catBG "alpha beta gamma" Snify.igEmpty).2
    (6, 16, [(1, "beta gamma")]) Snify.find_first_match_catBG

namespace Snify

/-! ## snify state (`ffutil/snify/snifystate.py`) -/

/-- `SnifyCursor.selection`: either a plain offset (`int`, not yet resolved)
or a half-open offset range (`tuple[int, int]`, a resolved selection). -/
inductive Selection where
  | offset (pos : Int)
  | range (start stop : Int)
deriving DecidableEq

/-- `SnifyCursor`: a frozen dataclass of a document index and a selection. -/
structure SnifyCursor where
  document_index : Int
  selection : Selection
deriving DecidableEq

/-- Modelled from the spec: the Document collaborator (its module is not among
the sources): an identifier, the current content, a language and a format
tag. -/
structure Document where
  identifier : String
  content : String
  language : String
  format : String
deriving DecidableEq

/-- `SnifyState`: the cursor plus the list of documents under edit. -/
structure SnifyState where
  cursor : SnifyCursor
  documents : List Document
deriving DecidableEq

/-- Python exceptions raised by state accessors. -/
inductive PyErr where
  | valueError (msg : String)
  | indexError
deriving DecidableEq

/-- Python list indexing `l[i]`: a negative index counts from the end; an
index out of range raises `IndexError` (modelled as `none`). -/
def pyListGet {α : Type} (l : List α) (i : Int) : Option α :=
  if 0 ≤ i then l[i.toNat]?
  else if 0 ≤ i + l.length then l[(i + l.length).toNat]?
  else none

/-- `SnifyState.get_current_document`: raises `ValueError` when the document
list is empty, otherwise returns `documents[cursor.document_index]`. -/
def get_current_document (s : SnifyState) : Except PyErr Document :=
  if s.documents.isEmpty then .error (.valueError "No documents available.")
  else
    match pyListGet s.documents s.cursor.document_index with
    | some d => .ok d
    | none => .error .indexError

/-! ## snify commands (`ffutil/snify/snify_commands.py`) -/

/-- Modelled from the spec: the text-substitution `CommandOutcome` (new text,
start offset, end offset); its defining module is not among the sources, the
fields are the ones its consumers use. -/
structure SubstitutionOutcome where
  new_str : String
  start_pos : Nat
  end_pos : Nat
deriving DecidableEq

/-- Stable descending insertion by `start_pos`: walk past strictly larger
keys, insert before the first key not larger. -/
def insertDesc (x : SubstitutionOutcome) : List SubstitutionOutcome → List SubstitutionOutcome
  | [] => [x]
  | y :: ys => if x.start_pos < y.start_pos then y :: insertDesc x ys else x :: y :: ys

/-- Python's stable `cmds.sort(key=lambda x: x.start_pos, reverse=True)`
modelled as a stable descending insertion sort. -/
def sortByStartPosDesc : List SubstitutionOutcome → List SubstitutionOutcome
  | [] => []
  | x :: xs => insertDesc x (sortByStartPosDesc xs)

/-- `ImportCommand.execute`: `cmds = self.redundancies + [self.outcome]`,
sorted by `start_pos` in decreasing order. -/
def ImportCommand_execute (outcome : SubstitutionOutcome)
    (redundancies : List SubstitutionOutcome) : List SubstitutionOutcome :=
  sortByStartPosDesc (redundancies ++ [outcome])

/-- Calls `View_i_Command.execute` makes on the rendering collaborator,
recorded as events (reading and showing a symbol's source file is recorded as
`showCodeFile`). -/
inductive IfaceEvent where
  | writeHeader (text : String)
  | showCodeFile (path : String)
deriving DecidableEq

/-- Python `AttributeError`: accessing an attribute that does not exist.
The rendering interface in `ffutil/stepper/interface.py` defines no
`admonition` method — not on the `interface` mirror class, not on the
abstract `Interface`, not on either implementation, and there is no
`__getattr__` — so the calls `interface.admonition(...)` in
`View_i_Command.execute` raise this error. -/
inductive AttrErr where
  | attributeError (attr : String)
deriving DecidableEq

/-- The symbol variants `View_i_Command.execute` distinguishes with
`isinstance(symbol, LocalStexSymbol)`. -/
inductive SymbolV where
  | localStex (uri path : String) (srefcount : Nat)
  | otherSymbol (tag : String)
deriving DecidableEq

/-- `View_i_Command.execute` for the already-parsed option index `i` (the
regex `^v[0-9]+$` guarantees a numeric suffix). An out-of-range index reaches
`interface.admonition('Invalid number', 'error', True)`, which raises
`AttributeError` since the interface has no `admonition` method (the `return
[]` after it is unreachable); likewise for an in-range symbol that is not a
`LocalStexSymbol`. For an in-range `LocalStexSymbol` the symbol's defining
file is displayed and no outcomes are produced. -/
def View_i_execute {Verb : Type} (options : List (SymbolV × Verb)) (i : Nat) :
    Except AttrErr (List IfaceEvent × List (Outcome SnifyCursor)) :=
  if h : options.length ≤ i then
    .error (.attributeError "admonition")
  else
    match (options.get ⟨i, by omega⟩).1 with
    | .localStex _ path _ => .ok ([.writeHeader path, .showCodeFile path], [])
    | .otherSymbol _ => .error (.attributeError "admonition")

end Snify

namespace Snify

/-! ## `SnifyStepper.ensure_state_up_to_date` (`ffutil/snify/snifystepper.py`) -/

/-- Modelled from the spec: an annotatable segment of a document (document
parsing is an external collaborator): its rendered text and its start/end
source references. -/
structure Segment where
  text : String
  startRef : Int
  endRef : Int

/-- The external collaborators `ensure_state_up_to_date` consults:
`doc.get_annotatable_segments()`, `get_catalog_for_document` (which is `None`
when no catalog is available for the document's language), and segment
slicing (`segment[...:]` by source reference and `segment[start:stop]` by
match offsets). -/
structure ScanEnv (Symb Verb : Type) where
  segmentsOf : Document → List Segment
  catalogFor : Document → Option (CatalogM Symb Verb)
  trimFromRef : Segment → Int → Segment
  slice : Segment → Nat → Nat → Segment

/-- How `ensure_state_up_to_date` can terminate abnormally: by raising
`StopStepper(reason)` or by an out-of-range document index (`IndexError`). -/
inductive EnsureErr where
  | stop (reason : String)
  | indexError
deriving DecidableEq

/-- The inner `for segment in annotatable_segments` loop: skip segments
ending at or before the cursor offset, trim a segment containing the offset,
scan it with `find_first_match` (with empty ignore sets), and on the first
match return the new resolved cursor and the match options. -/
def scanSegments {Symb Verb : Type} [DecidableEq Symb] (env : ScanEnv Symb Verb)
    (cat : CatalogM Symb Verb) (idx : Int) (sel : Int) :
    List Segment → Option (SnifyCursor × List (Symb × Verb))
  | [] => none
  | seg :: rest =>
    if seg.endRef ≤ sel then scanSegments env cat idx sel rest
    else
      match find_first_match cat
          (if sel ≥ seg.startRef then (env.trimFromRef seg sel).text else seg.text)
          ⟨[], [], []⟩ with
      | none => scanSegments env cat idx sel rest
      | some (start, stop, options) =>
        some
          (⟨idx, .range
              (env.slice (if sel ≥ seg.startRef then env.trimFromRef seg sel else seg)
                start stop).startRef
              (env.slice (if sel ≥ seg.startRef then env.trimFromRef seg sel else seg)
                start stop).endRef⟩,
            options)

/-- The outer `while cursor.document_index < len(self.state.documents)` loop:
fetch the document at the loop cursor's index, skip documents with no
catalog (resetting the loop cursor to the start of the next document), scan
its segments, and either return the updated state and annotation choices or
move on; when the documents are exhausted raise `StopStepper('done')`. -/
def scanDocs {Symb Verb : Type} [DecidableEq Symb] (env : ScanEnv Symb Verb)
    (s : SnifyState) (choices : Option (List (Symb × Verb))) (idx sel : Int) :
    Except EnsureErr (SnifyState × Option (List (Symb × Verb))) :=
  if h : idx < (s.documents.length : Int) then
    match pyListGet s.documents idx with
    | none => .error .indexError
    | some doc =>
      match env.catalogFor doc with
      | none => scanDocs env s choices (idx + 1) 0
      | some cat =>
        match scanSegments env cat idx sel (env.segmentsOf doc) with
        | some (cur, options) => .ok ({ s with cursor := cur }, some options)
        | none => scanDocs env s choices (idx + 1) 0
  else
    .error (.stop "done")
termination_by ((s.documents.length : Int) - idx).toNat
decreasing_by all_goals omega

/-- `SnifyStepper.ensure_state_up_to_date`: when the cursor's selection is
already a range, return at once with nothing changed; when it is a plain
offset, scan forward for the next annotatable match. The stepper-level pair
`(state, current_annotation_choices)` is passed and returned explicitly. -/
def ensure_state_up_to_date {Symb Verb : Type} [DecidableEq Symb] (env : ScanEnv Symb Verb)
    (s : SnifyState) (choices : Option (List (Symb × Verb))) :
    Except EnsureErr (SnifyState × Option (List (Symb × Verb))) :=
  match s.cursor.selection with
  | .range _ _ => .ok (s, choices)
  | .offset sel => scanDocs env s choices s.cursor.document_index sel

/-- A trivial scan environment (no segments, no catalogs), used to witness
frame properties. -/
def envTrivial : ScanEnv Nat String where
  segmentsOf := fun _ => []
  catalogFor := fun _ => none
  trimFromRef := fun seg _ => seg
  slice := fun seg _ _ => seg

end Snify

namespace Snify

theorem insertDesc_perm (x : SubstitutionOutcome) (l : List SubstitutionOutcome) :
    (insertDesc x l).Perm (x :: l) := by
  induction l with
  | nil => exact List.Perm.refl _
  | cons y ys ih =>
    rw [insertDesc]
    by_cases h : x.start_pos < y.start_pos
    · rw [if_pos h]
      exact (ih.cons y).trans (List.Perm.swap x y ys)
    · rw [if_neg h]

theorem sortByStartPosDesc_perm (l : List SubstitutionOutcome) :
    (sortByStartPosDesc l).Perm l := by
  induction l with
  | nil => exact List.Perm.refl _
  | cons x xs ih =>
    rw [sortByStartPosDesc]
    exact (insertDesc_perm x (sortByStartPosDesc xs)).trans (ih.cons x)

theorem insertDesc_pairwise (x : SubstitutionOutcome) (l : List SubstitutionOutcome)
    (h : l.Pairwise (fun a b => b.start_pos ≤ a.start_pos)) :
    (insertDesc x l).Pairwise (fun a b => b.start_pos ≤ a.start_pos) := by
  induction l with
  | nil => simp [insertDesc]
  | cons y ys ih =>
    rw [List.pairwise_cons] at h
    rw [insertDesc]
    by_cases hxy : x.start_pos < y.start_pos
    · rw [if_pos hxy]
      rw [List.pairwise_cons]
      refine ⟨?_, ih h.2⟩
      intro z hz
      rcases List.mem_cons.mp (((insertDesc_perm x ys).mem_iff).mp hz) with hzx | hzys
      · rw [hzx]
        omega
      · exact h.1 z hzys
    · rw [if_neg hxy]
      rw [List.pairwise_cons]
      refine ⟨?_, List.pairwise_cons.mpr h⟩
      intro z hz
      rcases List.mem_cons.mp hz with hzy | hzys
      · rw [hzy]
        omega
      · have := h.1 z hzys
        omega

theorem sortByStartPosDesc_pairwise (l : List SubstitutionOutcome) :
    (sortByStartPosDesc l).Pairwise (fun a b => b.start_pos ≤ a.start_pos) := by
  induction l with
  | nil => simp [sortByStartPosDesc]
  | cons x xs ih =>
    rw [sortByStartPosDesc]
    exact insertDesc_pairwise x (sortByStartPosDesc xs) ih

end Snify

/-- Claim C7 (code behavior at the failing input): for an option index at
least the number of offered options, `View_i_Command.execute` does not report
the error and return an empty outcome sequence — it raises `AttributeError`,
because the error report calls `interface.admonition`, a method the rendering
interface of `ffutil/stepper/interface.py` does not define. -/
theorem c7_view_i_out_of_range_raises {Verb : Type} (options : List (Snify.SymbolV × Verb))
    (i : Nat) (h : options.length ≤ i) :
    Snify.View_i_execute options i
      = Except.error (Snify.AttrErr.attributeError "admonition") := by
  unfold Snify.View_i_execute
  rw [dif_pos h]

/-- Witness for C7: index 2 into a one-element option list raises the
attribute error instead of degrading to a no-op. -/
theorem c7_view_i_out_of_range_raises_witness :
    Snify.View_i_execute [((Snify.SymbolV.localStex "u" "p" 0), "verb")] 2
      = Except.error (Snify.AttrErr.attributeError "admonition") :=
  c7_view_i_out_of_range_raises [((Snify.SymbolV.localStex "u" "p" 0), "verb")] 2 (by decide)

/-- Claim C8: `get_current_document` fails with an error condition
(`ValueError`) when the document list is empty; for a non-empty list and an
in-range cursor document index it returns the document at that index. -/
theorem c8_get_current_document (s : Snify.SnifyState) :
    (s.documents = [] →
      Snify.get_current_document s
        = Except.error (Snify.PyErr.valueError "No documents available."))
    ∧ (∀ d, s.documents ≠ [] → 0 ≤ s.cursor.document_index →
        s.documents[s.cursor.document_index.toNat]? = some d →
        Snify.get_current_document s = Except.ok d) := by
  constructor
  · intro h
    unfold Snify.get_current_document
    rw [if_pos (by rw [h]; rfl)]
  · intro d hne hnn hd
    unfold Snify.get_current_document
    rw [if_neg (by simpa [List.isEmpty_iff] using hne)]
    unfold Snify.pyListGet
    rw [if_pos hnn, hd]

/-- Witness for C8: the empty state errors, and a two-document state with the
cursor on index 1 returns the second document. -/
theorem c8_get_current_document_witness :
    (Snify.get_current_document ⟨⟨0, Snify.Selection.offset 0⟩, []⟩
      = Except.error (Snify.PyErr.valueError "No documents available."))
    ∧ (Snify.get_current_document
          ⟨⟨1, Snify.Selection.offset 0⟩,
            [⟨"a", "A", "en", "sTeX"⟩, ⟨"b", "B", "en", "sTeX"⟩]⟩
        = Except.ok ⟨"b", "B", "en", "sTeX"⟩) :=
  ⟨(c8_get_current_document ⟨⟨0, Snify.Selection.offset 0⟩, []⟩).1 rfl,
    (c8_get_current_document
        ⟨⟨1, Snify.Selection.offset 0⟩,
          [⟨"a", "A", "en", "sTeX"⟩, ⟨"b", "B", "en", "sTeX"⟩]⟩).2
      ⟨"b", "B", "en", "sTeX"⟩ (by decide) (by decide) rfl⟩

/-- Claim C9: `ImportCommand.execute` returns exactly the redundancies plus
the main outcome (as a permutation of that list), sorted by `start_pos` in
decreasing order, so a substitution at a larger document offset always
precedes one at a smaller offset. -/
theorem c9_import_execute_sorted_desc (outcome : Snify.SubstitutionOutcome)
    (redundancies : List Snify.SubstitutionOutcome) :
    (Snify.ImportCommand_execute outcome redundancies).Perm (redundancies ++ [outcome])
    ∧ (Snify.ImportCommand_execute outcome redundancies).Pairwise
        (fun a b => b.start_pos ≤ a.start_pos) :=
  ⟨Snify.sortByStartPosDesc_perm (redundancies ++ [outcome]),
    Snify.sortByStartPosDesc_pairwise (redundancies ++ [outcome])⟩

/-- Claim C10: when the cursor's selection is already a range,
`ensure_state_up_to_date` returns immediately without raising and leaves the
state (cursor and document list) and the stored annotation choices
unchanged. -/
theorem c10_ensure_noop_on_range {Symb Verb : Type} [DecidableEq Symb]
    (env : Snify.ScanEnv Symb Verb) (s : Snify.SnifyState)
    (choices : Option (List (Symb × Verb))) (a b : Int)
    (h : s.cursor.selection = Snify.Selection.range a b) :
    Snify.ensure_state_up_to_date env s choices = Except.ok (s, choices) := by
  unfold Snify.ensure_state_up_to_date
  rw [h]

/-- Witness for C10: a state with a resolved range selection passes through
the trivial environment untouched. -/
theorem c10_ensure_noop_on_range_witness :
    Snify.ensure_state_up_to_date Snify.envTrivial
        ⟨⟨0, Snify.Selection.range 1 3⟩, []⟩ none
      = Except.ok (⟨⟨0, Snify.Selection.range 1 3⟩, []⟩, none) :=
  c10_ensure_noop_on_range Snify.envTrivial ⟨⟨0, Snify.Selection.range 1 3⟩, []⟩ none 1 3 rfl
